import Mathlib

/-!
Verification development for the dataset pipeline in `datasets/DataReader.py`
(class `DataReader`).

The Python code is shallowly embedded as follows.

* A scipy sparse matrix in coordinate (COO) form is a `Coo`: a shape
  `(nRows, nCols)` together with an unordered list of stored entries
  `(row, col, value)`.  `nnz` is the number of stored entries
  (scipy's `nnz` for a COO matrix is `len(data)`).
* Conversion `.tocsr()` sums duplicate entries (entries at the same
  `(row, col)` position); explicit zeros are kept.  We model only the
  entry content of the CSR result (the row-major layout is irrelevant
  to the properties below), via `sumDuplicates` / `tocsr`.
* Rating values (`float32` in the source) and ratio/fraction parameters
  are modelled as exact rationals `Rat`; raw user/item identifiers
  (`uint32` in the source) as `Nat`.  All concrete inputs used in
  witnesses and counterexamples are small integers for which `float32`
  arithmetic is exact.
* The pseudo-random draws (`np.random.choice`) are passed to the
  embedded functions as explicit label vectors; `validChoice` (resp.
  `validFoldChoice`) characterises the vectors the generator can
  actually produce for given probabilities (resp. fold count).
-/

namespace DataReaderPy

/-- A stored entry of a sparse matrix: (row, col, value). -/
abbrev Entry : Type := Nat × Nat × Rat

/-- The (row, col) position of an entry. -/
def Entry.pos (e : Entry) : Nat × Nat := (e.1, e.2.1)

/-- The stored value of an entry. -/
def Entry.val (e : Entry) : Rat := e.2.2

/-- A sparse matrix in coordinate form: shape plus stored entries. -/
structure Coo where
  nRows : Nat
  nCols : Nat
  entries : List Entry
deriving DecidableEq, Repr

/-- Number of stored entries (scipy `nnz` of a COO matrix is `len(data)`). -/
def nnz (M : Coo) : Nat := M.entries.length

/-- The stored entries as a multiset (entry order is not meaningful). -/
def entriesMS (M : Coo) : Multiset Entry := (M.entries : Multiset Entry)

/-- Sum together all entries sharing one (row, col) position, keeping one
entry per distinct position (in first-occurrence order; the row-major
order a real CSR would use is irrelevant to every property below).  This
is the entry-content effect of scipy's `tocsr()` (`sum_duplicates`);
explicit zeros are kept. -/
def sumDuplicates (l : List Entry) : List Entry :=
  ((l.map Entry.pos).dedup).map
    (fun p => (p.1, p.2,
      ((l.filter (fun e => e.1 == p.1 && e.2.1 == p.2)).map Entry.val).sum))

/-- `M.tocsr()`: same shape, duplicate positions summed. -/
def tocsr (M : Coo) : Coo := ⟨M.nRows, M.nCols, sumDuplicates M.entries⟩

/-- The three split labels drawn by `np.random.choice(['train','test','valid'], ...)`
at `split_urm` line 491. -/
inductive SplitLabel where
  | train
  | test
  | valid
deriving DecidableEq

/-- Probability assigned to a label by a positional ratio list `[p_train, p_test, p_valid]`. -/
def probOf (probs : List Rat) : SplitLabel → Rat
  | .train => probs.getD 0 0
  | .test => probs.getD 1 0
  | .valid => probs.getD 2 0

/-- A label vector `np.random.choice(['train','test','valid'], p=probs, size=n)`
can produce: every drawn label has positive probability. -/
def validChoice (probs : List Rat) (choice : List SplitLabel) : Prop :=
  ∀ l ∈ choice, 0 < probOf probs l

instance (probs : List Rat) (choice : List SplitLabel) :
    Decidable (validChoice probs choice) := by
  unfold validChoice; infer_instance

/-- `URM.data[choice == lab]` / `URM.row[...]` / `URM.col[...]` in lock-step:
the entries whose drawn label is `lab`. -/
def selectLabel (entries : List Entry) (choice : List SplitLabel) (lab : SplitLabel) :
    List Entry :=
  ((entries.zip choice).filter (fun p => p.2 == lab)).map Prod.fst

/-- Sum of the stored values in row `u` (this is what
`URM_csr.sum(axis=1).A1[u]` computes). -/
def rowSum (entries : List Entry) (u : Nat) : Rat :=
  ((entries.filter (fun e => e.1 == u)).map Entry.val).sum

/-- Lines 476–486 of `split_urm`: when `min_ratings != 1`, the matrix is
converted to CSR (summing duplicates), users whose row **value sum** is
below `min_ratings` have their rows zeroed, and `eliminate_zeros()` then
drops every explicitly-zero entry; otherwise the matrix is untouched. -/
def filterMinRatings (URM : Coo) (minRatings : Int) : Coo :=
  if minRatings = 1 then URM
  else
    let C := sumDuplicates URM.entries
    let kept :=
      (C.filter (fun e => !(decide (rowSum C e.1 < (minRatings : Rat))))).filter
        (fun e => !(e.2.2 == 0))
    ⟨URM.nRows, URM.nCols, kept⟩

/-- Lines 469–510 of `DataReader.split_urm`, with the random draw of
line 491 passed in as the explicit vector `choice` (the `probs` argument
only parameterises that draw, see `validChoice`).  The three outputs keep
the input's shape and are returned through `.tocsr()`. -/
def splitUrm (URM : Coo) (probs : List Rat) (minRatings : Int)
    (choice : List SplitLabel) : Coo × Coo × Coo :=
  let U := filterMinRatings URM minRatings
  (tocsr ⟨U.nRows, U.nCols, selectLabel U.entries choice .train⟩,
   tocsr ⟨U.nRows, U.nCols, selectLabel U.entries choice .test⟩,
   tocsr ⟨U.nRows, U.nCols, selectLabel U.entries choice .valid⟩)

/-- `range(folds)` fold labels: `test = entries with label i`. -/
def selectFoldEq (entries : List Entry) (choice : List Nat) (i : Nat) : List Entry :=
  ((entries.zip choice).filter (fun p => p.2 == i)).map Prod.fst

/-- `train = entries with label ≠ i`. -/
def selectFoldNe (entries : List Entry) (choice : List Nat) (i : Nat) : List Entry :=
  ((entries.zip choice).filter (fun p => !(p.2 == i))).map Prod.fst

/-- A vector `np.random.choice(range(folds), size=n)` can produce:
every drawn fold index is below `folds`. -/
def validFoldChoice (folds : Nat) (choice : List Nat) : Prop :=
  ∀ v ∈ choice, v < folds

instance (folds : Nat) (choice : List Nat) :
    Decidable (validFoldChoice folds choice) := by
  unfold validFoldChoice; infer_instance

/-- Lines 513–539 of `DataReader.get_CV_folds`, with the random draw of
line 534 passed in as the explicit vector `choice`.  The generator yields
the pair `(train, test)` for `i = 0, ..., folds-1`, both through `.tocsr()`,
both with the input's shape; here the yielded sequence is the list of the
pairs in that order. -/
def getCVFolds (URM : Coo) (folds : Nat) (choice : List Nat) : List (Coo × Coo) :=
  (List.range folds).map (fun i =>
    (tocsr ⟨URM.nRows, URM.nCols, selectFoldNe URM.entries choice i⟩,
     tocsr ⟨URM.nRows, URM.nCols, selectFoldEq URM.entries choice i⟩))

/-- Insert `x` into a list sorted in nondecreasing `key` order, before the
first element with a key ≥ `key x` (a stable insertion). -/
def insertByKey (key : α → Nat) (x : α) : List α → List α
  | [] => [x]
  | y :: ys => if key x ≤ key y then x :: y :: ys else y :: insertByKey key x ys

/-- Stable insertion sort by nondecreasing `key`. -/
def sortByKey (key : α → Nat) : List α → List α
  | [] => []
  | x :: xs => insertByKey key x (sortByKey key xs)

/-- `np.unique(l)`: the distinct values of `l` in increasing order. -/
def sortedUnique (l : List Nat) : List Nat := sortByKey id l.dedup

/-- `np.unique(cols, return_counts=True)` as a list of (item, popularity)
pairs, in increasing item order. -/
def itemCounts (cols : List Nat) : List (Nat × Nat) :=
  (sortedUnique cols).map (fun i => (i, cols.count i))

/-- Lines 393–396 of `build_URM`: the `unique_items` array that survives the
popularity filter, in the order the code leaves it in.  For
`remove_top_pop > 0` this is `unique_items[np.argsort(item_counts)[::-1]][k:]`
with `k = int(np.floor(len(unique_items) * remove_top_pop))`: the unique
items sorted by descending popularity with the top `k` dropped (`sortByKey`
is stable ascending, matching a stable `np.argsort`; no input used in a
theorem below has tied popularities, where `np.argsort`'s default kind
leaves the order unspecified).  Otherwise it is `np.unique(cols)` itself. -/
def survivingItems (cols : List Nat) (removeTopPop : Rat) : List Nat :=
  if 0 < removeTopPop then
    (((sortByKey Prod.snd (itemCounts cols)).reverse).drop
      (Nat.floor (((sortedUnique cols).length : Rat) * removeTopPop))).map Prod.fst
  else sortedUnique cols

/-- The top-popularity items dropped by lines 393–396 (empty when
`remove_top_pop ≤ 0`). -/
def removedItems (cols : List Nat) (removeTopPop : Rat) : List Nat :=
  if 0 < removeTopPop then
    (((sortByKey Prod.snd (itemCounts cols)).reverse).take
      (Nat.floor (((sortedUnique cols).length : Rat) * removeTopPop))).map Prod.fst
  else []

/-- `l[mask]` for a boolean mask: keep the elements at `true` positions. -/
def applyMask (l : List α) (mask : List Bool) : List α :=
  ((l.zip mask).filter (fun p => p.2)).map Prod.fst

/-- Lines 393–403 of `build_URM`: when `remove_top_pop > 0`, the mask
`np.isin(cols, unique_items)` is computed against the surviving items and
applied to `rows`, `cols` and `data` in lock-step. -/
def popFilter (rows cols : List Nat) (data : List Rat) (removeTopPop : Rat) :
    List Nat × List Nat × List Rat :=
  if 0 < removeTopPop then
    let surv := survivingItems cols removeTopPop
    let colMask := cols.map (fun c => decide (c ∈ surv))
    (applyMask rows colMask, applyMask cols colMask, applyMask data colMask)
  else (rows, cols, data)

/-- Lines 388–389 of `build_URM`: with `implicit=True` the data column is
replaced by `np.ones(len(data))`. -/
def implicitData (data : List Rat) (implicit : Bool) : List Rat :=
  if implicit then List.replicate data.length (1 : Rat) else data

/-- Lines 386–428 of `DataReader.build_URM`, starting from the parsed
sequences (`read_interactions` output).  Returns the COO matrix together
with the `row_to_user` and `col_to_item` dictionaries (as association
lists in the insertion order `dict(zip(...))` produces).  The
`pd.Series.map` remapping is total here because the dictionaries cover
every surviving raw id (`.getD 0` is never the missing-key case). -/
def buildURM (rows cols : List Nat) (data : List Rat) (implicit : Bool)
    (removeTopPop : Rat) : Coo × List (Nat × Nat) × List (Nat × Nat) :=
  let data1 := implicitData data implicit
  let filt := popFilter rows cols data1 removeTopPop
  let rows1 := filt.1
  let cols1 := filt.2.1
  let data2 := filt.2.2
  let surv := survivingItems cols removeTopPop
  let uu := sortedUnique rows1
  let rowToUser := uu.zip (List.range uu.length)
  let colToItem := surv.zip (List.range surv.length)
  let cooRows := rows1.map (fun u => (rowToUser.lookup u).getD 0)
  let cooCols := cols1.map (fun c => (colToItem.lookup c).getD 0)
  (⟨uu.length, surv.length, cooRows.zip (cooCols.zip data2)⟩, rowToUser, colToItem)

/-- The identifier mapping as the spec's words describe it: each raw id is
assigned its dense index in the order of first appearance in the
sorted-unique id sequence (to be compared with the mapping the code
builds). -/
def specOrderedMapping (ids : List Nat) : List (Nat × Nat) :=
  (sortedUnique ids).zip (List.range (sortedUnique ids).length)

/-- The `config` dictionary assembled at lines 80–89 of the constructor
(`min_ratings` is not part of it). -/
structure Config where
  useCols : List (String × Nat)
  splitProbs : List Rat
  stratifiedOn : String
  header : Bool
  delim : String
  implicit : Bool
  removeTopPop : Rat
  seed : Int
deriving DecidableEq, Repr

/-- Lines 37–89 of `DataReader.__init__`.  The constructor performs no file
access; its first action after `super().__init__()` is the split-ratio
check `sum(split_ratio) != 1.0 or len(split_ratio) != 3`, which raises
`AttributeError`.  With fewer than three `use_cols` entries the `implicit`
flag is silently forced to `True` (lines 74–77).  Arithmetic on the ratio
is modelled exactly over `Rat`. -/
def dataReaderInit (useCols : List (String × Nat)) (splitProbs : List Rat)
    (stratifiedOn : String) (header : Bool) (delim : String)
    (implicit : Bool) (removeTopPop : Rat) (minRatings : Int) (seed : Int) :
    Except String Config :=
  if splitProbs.sum ≠ 1 ∨ splitProbs.length ≠ 3 then
    Except.error "Split ratio of train, test and validation must sum up to 1"
  else
    Except.ok ⟨useCols, splitProbs, stratifiedOn, header, delim,
               if useCols.length < 3 then true else implicit,
               removeTopPop, seed⟩

/-- Lines 332–336 of `read_interactions`, for one data line (already split
at the delimiter; the numeric fields are modelled as exact rationals, the
string-to-number conversions are abstracted).  The three dictionary
lookups raise `KeyError` when the key is absent, the indexings raise
`IndexError` when out of range, in source order: user, item, rating. -/
def parseLine (useCols : List (String × Nat)) (rowData : List Rat) :
    Except String (Rat × Rat × Rat) :=
  match useCols.lookup "user_id" with
  | none => Except.error "KeyError: user_id"
  | some ui =>
    match rowData[ui]? with
    | none => Except.error "IndexError"
    | some u =>
      match useCols.lookup "item_id" with
      | none => Except.error "KeyError: item_id"
      | some ii =>
        match rowData[ii]? with
        | none => Except.error "IndexError"
        | some it =>
          match useCols.lookup "rating" with
          | none => Except.error "KeyError: rating"
          | some ri =>
            match rowData[ri]? with
            | none => Except.error "IndexError"
            | some rv => Except.ok (u, it, rv)

/-- The `for line in f` loop of `read_interactions`: parse each data line
in order; the first failing line aborts the loop with its error. -/
def readLines (useCols : List (String × Nat)) :
    List (List Rat) → Except String (List (Rat × Rat × Rat))
  | [] => Except.ok []
  | l :: ls =>
    match parseLine useCols l with
    | Except.error e => Except.error e
    | Except.ok t =>
      match readLines useCols ls with
      | Except.error e => Except.error e
      | Except.ok ts => Except.ok (t :: ts)

/-- Lines 273–338 of `DataReader.read_interactions`: skip the header line
when `header` is set, then fill the three parallel sequences line by line;
any per-line failure aborts the whole parse and nothing is returned. -/
def readInteractions (useCols : List (String × Nat)) (header : Bool)
    (lines : List (List Rat)) :
    Except String (List Rat × List Rat × List Rat) :=
  match readLines useCols (if header then lines.drop 1 else lines) with
  | Except.error e => Except.error e
  | Except.ok triples =>
    Except.ok (triples.map (fun t => t.1), triples.map (fun t => t.2.1),
               triples.map (fun t => t.2.2))

/-- Outcome of opening/extracting the downloaded archive. -/
inductive ZipOutcome where
  | ok
  | missingMember
  | corrupt
deriving DecidableEq

/-- Lines 123–137 of `DataReader.get_ratings_file`, as a transition on the
set of files on disk (modelled as a list of paths).  `download_url` writes
the archive `zipFile` to disk.  `zipfile.ZipFile` then raises on a corrupt
archive — outside the `try`, so nothing is removed.  Inside the `try`,
`zfile.extract` either writes `dataFile` and the archive is removed
(`os.remove(zip_file)`), or raises on a missing member; the `except`
clause only prints and re-raises, removing nothing. -/
def getRatingsFile (fs : List String) (zipFile dataFile : String)
    (outcome : ZipOutcome) : List String × Except String String :=
  let fs1 := zipFile :: fs
  match outcome with
  | .corrupt => (fs1, Except.error "BadZipFile")
  | .missingMember => (fs1, Except.error "extract: member not found")
  | .ok => (dataFile :: fs1.erase zipFile, Except.ok dataFile)

/-! ### Helper lemmas about `sumDuplicates` -/

theorem filter_pos_eq_singleton (l : List Entry) (h : (l.map Entry.pos).Nodup)
    (e : Entry) (he : e ∈ l) :
    l.filter (fun x => x.1 == e.1 && x.2.1 == e.2.1) = [e] := by
  induction l with
  | nil => cases he
  | cons a as ih =>
    simp only [List.map_cons, List.nodup_cons] at h
    rcases List.mem_cons.mp he with rfl | hmem
    · have hnil : as.filter (fun x => x.1 == e.1 && x.2.1 == e.2.1) = [] := by
        rw [List.filter_eq_nil_iff]
        intro x hx
        simp only [Bool.and_eq_true, beq_iff_eq, not_and]
        intro h1 h2
        exact h.1 (List.mem_map.mpr ⟨x, hx, by simp [Entry.pos, h1, h2]⟩)
      rw [List.filter_cons, if_pos (by simp), hnil]
    · have hne : ¬(a.1 == e.1 && a.2.1 == e.2.1) = true := by
        simp only [Bool.and_eq_true, beq_iff_eq, not_and]
        intro h1 h2
        exact h.1 (List.mem_map.mpr ⟨e, hmem, by simp [Entry.pos, h1, h2]⟩)
      rw [List.filter_cons, if_neg hne]
      exact ih h.2 hmem

theorem sumDuplicates_of_nodup (l : List Entry) (h : (l.map Entry.pos).Nodup) :
    sumDuplicates l = l := by
  unfold sumDuplicates
  rw [List.dedup_eq_self.mpr h, List.map_map]
  have hpt : ∀ e ∈ l,
      ((fun p : Nat × Nat =>
          ((p.1, p.2,
            ((l.filter (fun x => x.1 == p.1 && x.2.1 == p.2)).map Entry.val).sum) : Entry))
        ∘ Entry.pos) e = e := by
    intro e he
    simp only [Function.comp_apply, Entry.pos]
    rw [filter_pos_eq_singleton l h e he]
    simp [Entry.val]
  rw [List.map_congr_left hpt]
  exact List.map_id' l

/-! ### Helper lemmas about label selection -/

theorem selectLabel_cons (e : Entry) (es : List Entry) (l lab : SplitLabel)
    (ls : List SplitLabel) :
    selectLabel (e :: es) (l :: ls) lab
      = if l == lab then e :: selectLabel es ls lab else selectLabel es ls lab := by
  simp only [selectLabel, List.zip_cons_cons, List.filter_cons]
  by_cases h : (l == lab) = true
  · simp [h]
  · simp [h]

theorem selectLabel_sublist (entries : List Entry) (choice : List SplitLabel)
    (h : entries.length ≤ choice.length) (lab : SplitLabel) :
    (selectLabel entries choice lab).Sublist entries := by
  have h1 : ((entries.zip choice).filter (fun p => p.2 == lab)).Sublist
      (entries.zip choice) := List.filter_sublist _
  have h2 := h1.map Prod.fst
  rwa [List.map_fst_zip entries choice h] at h2

theorem selectLabel_perm (entries : List Entry) (choice : List SplitLabel)
    (h : choice.length = entries.length) :
    (selectLabel entries choice .train ++ selectLabel entries choice .test ++
      selectLabel entries choice .valid).Perm entries := by
  induction entries generalizing choice with
  | nil => simp [selectLabel]
  | cons e es ih =>
    cases choice with
    | nil => simp at h
    | cons l ls =>
      have hl : ls.length = es.length := by simpa using h
      have hih := ih ls hl
      rw [selectLabel_cons, selectLabel_cons, selectLabel_cons]
      cases l with
      | train =>
        simp only [show (SplitLabel.train == SplitLabel.train) = true from rfl,
          show (SplitLabel.train == SplitLabel.test) = false from rfl,
          show (SplitLabel.train == SplitLabel.valid) = false from rfl,
          if_true, if_false, Bool.false_eq_true, List.cons_append]
        exact hih.cons e
      | test =>
        simp only [show (SplitLabel.test == SplitLabel.train) = false from rfl,
          show (SplitLabel.test == SplitLabel.test) = true from rfl,
          show (SplitLabel.test == SplitLabel.valid) = false from rfl,
          if_true, if_false, Bool.false_eq_true]
        exact (List.perm_middle.append_right _).trans (hih.cons e)
      | valid =>
        simp only [show (SplitLabel.valid == SplitLabel.train) = false from rfl,
          show (SplitLabel.valid == SplitLabel.test) = false from rfl,
          show (SplitLabel.valid == SplitLabel.valid) = true from rfl,
          if_true, if_false, Bool.false_eq_true]
        exact List.perm_middle.trans (hih.cons e)

/-! ### Helper lemmas about sorting and unique ids -/

theorem insertByKey_perm (key : α → Nat) (x : α) (l : List α) :
    (insertByKey key x l).Perm (x :: l) := by
  induction l with
  | nil => exact List.Perm.refl _
  | cons y ys ih =>
    by_cases h : key x ≤ key y
    · rw [insertByKey, if_pos h]
    · rw [insertByKey, if_neg h]
      exact (ih.cons y).trans (List.Perm.swap x y ys)

theorem sortByKey_perm (key : α → Nat) (l : List α) : (sortByKey key l).Perm l := by
  induction l with
  | nil => exact List.Perm.refl _
  | cons x xs ih => exact (insertByKey_perm key x (sortByKey key xs)).trans (ih.cons x)

theorem insertByKey_sorted (key : α → Nat) (x : α) (l : List α)
    (h : l.Pairwise (fun a b => key a ≤ key b)) :
    (insertByKey key x l).Pairwise (fun a b => key a ≤ key b) := by
  induction l with
  | nil => simp [insertByKey]
  | cons y ys ih =>
    rcases List.pairwise_cons.mp h with ⟨hy, hys⟩
    by_cases hxy : key x ≤ key y
    · rw [insertByKey, if_pos hxy]
      refine List.pairwise_cons.mpr ⟨?_, h⟩
      intro b hb
      rcases List.mem_cons.mp hb with rfl | hb
      · exact hxy
      · exact le_trans hxy (hy b hb)
    · rw [insertByKey, if_neg hxy]
      refine List.pairwise_cons.mpr ⟨?_, ih hys⟩
      intro b hb
      rcases List.mem_cons.mp ((insertByKey_perm key x ys).mem_iff.mp hb) with rfl | hb
      · exact le_of_not_le hxy
      · exact hy b hb

theorem sortByKey_sorted (key : α → Nat) (l : List α) :
    (sortByKey key l).Pairwise (fun a b => key a ≤ key b) := by
  induction l with
  | nil => simp [sortByKey]
  | cons x xs ih => exact insertByKey_sorted key x (sortByKey key xs) ih

theorem sortedUnique_nodup (l : List Nat) : (sortedUnique l).Nodup :=
  ((sortByKey_perm id l.dedup).nodup_iff).mpr l.nodup_dedup

theorem sortedUnique_sorted_lt (l : List Nat) :
    (sortedUnique l).Pairwise (fun a b => a < b) := by
  have h1 : (sortedUnique l).Pairwise (fun a b => a ≤ b) := sortByKey_sorted id l.dedup
  have h2 : (sortedUnique l).Pairwise (fun a b => a ≠ b) := sortedUnique_nodup l
  exact (h1.and h2).imp (fun h => lt_of_le_of_ne h.1 h.2)

theorem mem_sortedUnique (l : List Nat) (x : Nat) : x ∈ sortedUnique l ↔ x ∈ l := by
  unfold sortedUnique
  rw [(sortByKey_perm id l.dedup).mem_iff, List.mem_dedup]

/-! ### Helper lemmas about zipping with `range` (the `dict(zip(ids, range(n)))` step) -/

theorem map_fst_zip_range (l : List α) :
    ((l.zip (List.range l.length)).map Prod.fst) = l :=
  List.map_fst_zip l (List.range l.length) (by simp)

theorem map_snd_zip_range (l : List α) :
    ((l.zip (List.range l.length)).map Prod.snd) = List.range l.length :=
  List.map_snd_zip l (List.range l.length) (by simp)

theorem pairwise_fst_zip_range (l : List α) (r : α → α → Prop) (h : l.Pairwise r) :
    (l.zip (List.range l.length)).Pairwise (fun a b => r a.1 b.1) := by
  rw [← map_fst_zip_range l] at h
  exact List.pairwise_map.mp h

/-! ### Helper lemmas about the popularity filter -/

theorem itemCounts_map_fst (cols : List Nat) :
    (itemCounts cols).map Prod.fst = sortedUnique cols := by
  unfold itemCounts
  rw [List.map_map]
  simp [Function.comp_def]

theorem sortedPairs_fst_nodup (cols : List Nat) :
    (((sortByKey Prod.snd (itemCounts cols)).reverse).map Prod.fst).Nodup := by
  rw [List.map_reverse, List.nodup_reverse]
  have hperm : ((sortByKey Prod.snd (itemCounts cols)).map Prod.fst).Perm
      ((itemCounts cols).map Prod.fst) :=
    (sortByKey_perm Prod.snd (itemCounts cols)).map Prod.fst
  rw [hperm.nodup_iff, itemCounts_map_fst]
  exact sortedUnique_nodup cols

theorem survivingItems_nodup (cols : List Nat) (r : Rat) :
    (survivingItems cols r).Nodup := by
  unfold survivingItems
  by_cases h : 0 < r
  · rw [if_pos h]
    exact (sortedPairs_fst_nodup cols).sublist ((List.drop_sublist _ _).map Prod.fst)
  · rw [if_neg h]
    exact sortedUnique_nodup cols

theorem survivingItems_length (cols : List Nat) (r : Rat) (h : 0 < r) :
    (survivingItems cols r).length =
      (sortedUnique cols).length -
        Nat.floor (((sortedUnique cols).length : Rat) * r) := by
  unfold survivingItems
  rw [if_pos h, List.length_map, List.length_drop, List.length_reverse,
    (sortByKey_perm Prod.snd (itemCounts cols)).length_eq]
  unfold itemCounts
  rw [List.length_map]

theorem survivingItems_not_removed (cols : List Nat) (r : Rat) (x : Nat)
    (hx : x ∈ survivingItems cols r) : x ∉ removedItems cols r := by
  unfold survivingItems removedItems at *
  by_cases h : 0 < r
  · rw [if_pos h] at hx ⊢
    intro hmem
    have hA := sortedPairs_fst_nodup cols
    rw [show ((sortByKey Prod.snd (itemCounts cols)).reverse).map Prod.fst
        = (((sortByKey Prod.snd (itemCounts cols)).reverse).take
            (Nat.floor (((sortedUnique cols).length : Rat) * r))).map Prod.fst ++
          (((sortByKey Prod.snd (itemCounts cols)).reverse).drop
            (Nat.floor (((sortedUnique cols).length : Rat) * r))).map Prod.fst
      from by rw [← List.map_append, List.take_append_drop]] at hA
    exact (List.disjoint_of_nodup_append hA) hmem hx
  · rw [if_neg h]
    simp

/-! ### Helper lemmas about boolean-mask filtering -/

theorem applyMask_nil (mask : List Bool) : applyMask ([] : List α) mask = [] := by
  simp [applyMask]

theorem applyMask_cons (x : α) (xs : List α) (b : Bool) (bs : List Bool) :
    applyMask (x :: xs) (b :: bs)
      = if b then x :: applyMask xs bs else applyMask xs bs := by
  cases b
  · simp [applyMask]
  · simp [applyMask]

theorem applyMask_mem (l : List α) (mask : List Bool) (x : α)
    (hx : x ∈ applyMask l mask) : x ∈ l := by
  unfold applyMask at hx
  rcases List.mem_map.mp hx with ⟨p, hp, rfl⟩
  exact (List.of_mem_zip (List.mem_filter.mp hp).1).1

theorem applyMask_zip3 (pred : Nat → Bool) (cols : List Nat) :
    ∀ (rows : List Nat) (data : List Rat),
      rows.length = cols.length → data.length = cols.length →
      ((applyMask rows (cols.map pred)).zip
        ((applyMask cols (cols.map pred)).zip (applyMask data (cols.map pred))))
        = ((rows.zip (cols.zip data)).filter (fun t => pred t.2.1)) := by
  induction cols with
  | nil =>
    intro rows data h1 h2
    rw [List.length_nil, List.length_eq_zero] at h1 h2
    subst h1; subst h2
    simp [applyMask]
  | cons c cs ih =>
    intro rows data h1 h2
    cases rows with
    | nil => simp at h1
    | cons r rs =>
      cases data with
      | nil => simp at h2
      | cons d ds =>
        have h1' : rs.length = cs.length := by simpa using h1
        have h2' : ds.length = cs.length := by simpa using h2
        rw [List.map_cons, applyMask_cons, applyMask_cons, applyMask_cons,
          List.zip_cons_cons, List.zip_cons_cons, List.filter_cons]
        by_cases hp : pred c = true
        · simp only [hp, if_true]
          rw [List.zip_cons_cons, List.zip_cons_cons, ih rs ds h1' h2']
        · simp only [hp, if_false, Bool.false_eq_true]
          exact ih rs ds h1' h2'

theorem popFilter_pos (rows cols : List Nat) (data : List Rat) (r : Rat)
    (h : 0 < r) :
    popFilter rows cols data r
      = (applyMask rows (cols.map (fun c => decide (c ∈ survivingItems cols r))),
         applyMask cols (cols.map (fun c => decide (c ∈ survivingItems cols r))),
         applyMask data (cols.map (fun c => decide (c ∈ survivingItems cols r)))) := by
  unfold popFilter
  rw [if_pos h]

theorem popFilter_neg (rows cols : List Nat) (data : List Rat) (r : Rat)
    (h : ¬ 0 < r) :
    popFilter rows cols data r = (rows, cols, data) := by
  unfold popFilter
  rw [if_neg h]

theorem filterMinRatings_one (M : Coo) : filterMinRatings M 1 = M := by
  unfold filterMinRatings
  rw [if_pos rfl]

/-! ### Claim C1 -/

/-- **C1** (amended): for every coordinate matrix `M` whose stored entries
occupy pairwise-distinct positions, every 3-element ratio summing to 1, and
every label vector the draw can produce (one label per entry,
`min_ratings = 1` so no pre-filtering), `split_urm` returns three matrices
with `M`'s shape whose stored-entry counts add up to `nnz M` and whose
entries, as a multiset of (row, col, value) triples, together are exactly
`M`'s entries.  (The claim's original form, quantifying over matrices with
duplicate positions as well, fails: the returned matrices pass through
`.tocsr()`, which merges duplicate positions — see the counterexample.) -/
theorem claim1_split_partition (M : Coo) (probs : List Rat)
    (choice : List SplitLabel) (hsum : probs.sum = 1)
    (hnd : (M.entries.map Entry.pos).Nodup)
    (hlen : choice.length = M.entries.length) :
    ((splitUrm M probs 1 choice).1.nRows = M.nRows ∧
     (splitUrm M probs 1 choice).1.nCols = M.nCols) ∧
    ((splitUrm M probs 1 choice).2.1.nRows = M.nRows ∧
     (splitUrm M probs 1 choice).2.1.nCols = M.nCols) ∧
    ((splitUrm M probs 1 choice).2.2.nRows = M.nRows ∧
     (splitUrm M probs 1 choice).2.2.nCols = M.nCols) ∧
    nnz (splitUrm M probs 1 choice).1 + nnz (splitUrm M probs 1 choice).2.1 +
      nnz (splitUrm M probs 1 choice).2.2 = nnz M ∧
    entriesMS (splitUrm M probs 1 choice).1 +
      entriesMS (splitUrm M probs 1 choice).2.1 +
      entriesMS (splitUrm M probs 1 choice).2.2 = entriesMS M := by
  have hle : M.entries.length ≤ choice.length := le_of_eq hlen.symm
  have hnd' : ∀ lab, ((selectLabel M.entries choice lab).map Entry.pos).Nodup := by
    intro lab
    exact hnd.sublist ((selectLabel_sublist M.entries choice hle lab).map Entry.pos)
  have hsd : ∀ lab, sumDuplicates (selectLabel M.entries choice lab)
      = selectLabel M.entries choice lab :=
    fun lab => sumDuplicates_of_nodup _ (hnd' lab)
  have hperm := selectLabel_perm M.entries choice hlen
  refine ⟨⟨?_, ?_⟩, ⟨?_, ?_⟩, ⟨?_, ?_⟩, ?_, ?_⟩
  · simp [splitUrm, filterMinRatings_one, tocsr]
  · simp [splitUrm, filterMinRatings_one, tocsr]
  · simp [splitUrm, filterMinRatings_one, tocsr]
  · simp [splitUrm, filterMinRatings_one, tocsr]
  · simp [splitUrm, filterMinRatings_one, tocsr]
  · simp [splitUrm, filterMinRatings_one, tocsr]
  · simp only [splitUrm, filterMinRatings_one, tocsr, nnz, hsd]
    have hlen2 := hperm.length_eq
    simpa [List.length_append, Nat.add_assoc] using hlen2
  · simp only [splitUrm, filterMinRatings_one, tocsr, entriesMS, hsd]
    have hcoe := Multiset.coe_eq_coe.mpr hperm
    simpa using hcoe

/-- **C1** (counterexample to the original claim): the matrix with the two
stored entries `(0,0,1.0)` and `(0,0,2.0)` (a duplicate position, which the
COO format allows), split with ratio `[1,0,0]` and `min_ratings = 1`.  The
only label vector `np.random.choice` can produce is `[train, train]`, yet
the returned matrices hold a single entry `(0,0,3.0)` in total: `.tocsr()`
merged the two entries, so the nnz sum is 1 ≠ 2 = nnz(M) and the multiset
union is not `M`'s entries. -/
theorem claim1_counterexample :
    validChoice [1, 0, 0] [SplitLabel.train, SplitLabel.train] ∧
    ([1, 0, 0] : List Rat).sum = 1 ∧
    [SplitLabel.train, SplitLabel.train].length
      = (Coo.mk 1 1 [(0, 0, 1), (0, 0, 2)]).entries.length ∧
    ¬ (nnz (splitUrm (Coo.mk 1 1 [(0, 0, 1), (0, 0, 2)]) [1, 0, 0] 1
          [SplitLabel.train, SplitLabel.train]).1 +
        nnz (splitUrm (Coo.mk 1 1 [(0, 0, 1), (0, 0, 2)]) [1, 0, 0] 1
          [SplitLabel.train, SplitLabel.train]).2.1 +
        nnz (splitUrm (Coo.mk 1 1 [(0, 0, 1), (0, 0, 2)]) [1, 0, 0] 1
          [SplitLabel.train, SplitLabel.train]).2.2
        = nnz (Coo.mk 1 1 [(0, 0, 1), (0, 0, 2)]) ∧
       entriesMS (splitUrm (Coo.mk 1 1 [(0, 0, 1), (0, 0, 2)]) [1, 0, 0] 1
          [SplitLabel.train, SplitLabel.train]).1 +
        entriesMS (splitUrm (Coo.mk 1 1 [(0, 0, 1), (0, 0, 2)]) [1, 0, 0] 1
          [SplitLabel.train, SplitLabel.train]).2.1 +
        entriesMS (splitUrm (Coo.mk 1 1 [(0, 0, 1), (0, 0, 2)]) [1, 0, 0] 1
          [SplitLabel.train, SplitLabel.train]).2.2
        = entriesMS (Coo.mk 1 1 [(0, 0, 1), (0, 0, 2)])) := by
  with_unfolding_all decide

/-- **C1** (witness): the amended theorem applied to the concrete matrix
with entries `(0,0,5.0)` and `(1,1,3.0)`, ratio `[0.6, 0.2, 0.2]` and draw
`[train, test]`. -/
theorem claim1_witness :
    (([3/5, 1/5, 1/5] : List Rat).sum = 1 ∧
     ((Coo.mk 2 2 [(0, 0, 5), (1, 1, 3)]).entries.map Entry.pos).Nodup ∧
     [SplitLabel.train, SplitLabel.test].length
       = (Coo.mk 2 2 [(0, 0, 5), (1, 1, 3)]).entries.length) ∧
    (((splitUrm (Coo.mk 2 2 [(0, 0, 5), (1, 1, 3)]) [3/5, 1/5, 1/5] 1
          [SplitLabel.train, SplitLabel.test]).1.nRows
        = (Coo.mk 2 2 [(0, 0, 5), (1, 1, 3)]).nRows ∧
      (splitUrm (Coo.mk 2 2 [(0, 0, 5), (1, 1, 3)]) [3/5, 1/5, 1/5] 1
          [SplitLabel.train, SplitLabel.test]).1.nCols
        = (Coo.mk 2 2 [(0, 0, 5), (1, 1, 3)]).nCols) ∧
     ((splitUrm (Coo.mk 2 2 [(0, 0, 5), (1, 1, 3)]) [3/5, 1/5, 1/5] 1
          [SplitLabel.train, SplitLabel.test]).2.1.nRows
        = (Coo.mk 2 2 [(0, 0, 5), (1, 1, 3)]).nRows ∧
      (splitUrm (Coo.mk 2 2 [(0, 0, 5), (1, 1, 3)]) [3/5, 1/5, 1/5] 1
          [SplitLabel.train, SplitLabel.test]).2.1.nCols
        = (Coo.mk 2 2 [(0, 0, 5), (1, 1, 3)]).nCols) ∧
     ((splitUrm (Coo.mk 2 2 [(0, 0, 5), (1, 1, 3)]) [3/5, 1/5, 1/5] 1
          [SplitLabel.train, SplitLabel.test]).2.2.nRows
        = (Coo.mk 2 2 [(0, 0, 5), (1, 1, 3)]).nRows ∧
      (splitUrm (Coo.mk 2 2 [(0, 0, 5), (1, 1, 3)]) [3/5, 1/5, 1/5] 1
          [SplitLabel.train, SplitLabel.test]).2.2.nCols
        = (Coo.mk 2 2 [(0, 0, 5), (1, 1, 3)]).nCols) ∧
     nnz (splitUrm (Coo.mk 2 2 [(0, 0, 5), (1, 1, 3)]) [3/5, 1/5, 1/5] 1
          [SplitLabel.train, SplitLabel.test]).1 +
       nnz (splitUrm (Coo.mk 2 2 [(0, 0, 5), (1, 1, 3)]) [3/5, 1/5, 1/5] 1
          [SplitLabel.train, SplitLabel.test]).2.1 +
       nnz (splitUrm (Coo.mk 2 2 [(0, 0, 5), (1, 1, 3)]) [3/5, 1/5, 1/5] 1
          [SplitLabel.train, SplitLabel.test]).2.2
       = nnz (Coo.mk 2 2 [(0, 0, 5), (1, 1, 3)]) ∧
     entriesMS (splitUrm (Coo.mk 2 2 [(0, 0, 5), (1, 1, 3)]) [3/5, 1/5, 1/5] 1
          [SplitLabel.train, SplitLabel.test]).1 +
       entriesMS (splitUrm (Coo.mk 2 2 [(0, 0, 5), (1, 1, 3)]) [3/5, 1/5, 1/5] 1
          [SplitLabel.train, SplitLabel.test]).2.1 +
       entriesMS (splitUrm (Coo.mk 2 2 [(0, 0, 5), (1, 1, 3)]) [3/5, 1/5, 1/5] 1
          [SplitLabel.train, SplitLabel.test]).2.2
       = entriesMS (Coo.mk 2 2 [(0, 0, 5), (1, 1, 3)])) :=
  ⟨⟨by with_unfolding_all decide, by decide, by decide⟩,
   claim1_split_partition (Coo.mk 2 2 [(0, 0, 5), (1, 1, 3)]) [3/5, 1/5, 1/5]
     [SplitLabel.train, SplitLabel.test]
     (by with_unfolding_all decide) (by decide) (by decide)⟩

/-! ### Claim C2 -/

/-- **C2** (the code contradicts the claim): the constructor records `seed`
in the `config` dictionary but never calls `np.random.seed`, so the draw in
`split_urm` comes from the unseeded global stream.  Under one and the same
configuration (ratio `[0.5, 0.5, 0.0]`, any fixed seed) the generator can
produce either the draw `[train]` or the draw `[test]` on the singleton
matrix — both are valid draws — and the two runs return different splits. -/
theorem claim2_seed_not_applied :
    validChoice [1/2, 1/2, 0] [SplitLabel.train] ∧
    validChoice [1/2, 1/2, 0] [SplitLabel.test] ∧
    splitUrm (Coo.mk 1 1 [(0, 0, 1)]) [1/2, 1/2, 0] 1 [SplitLabel.train]
      ≠ splitUrm (Coo.mk 1 1 [(0, 0, 1)]) [1/2, 1/2, 0] 1 [SplitLabel.test] := by
  with_unfolding_all decide

/-! ### Claim C3 -/

/-- **C3** (the code contradicts the claim and its own docstring): the
matrix with the single entry `(0,0,5.0)` filtered with `min_ratings = 3`.
User 0 has one stored non-zero entry (count 1 < 3), so the claim requires
the entry's removal; the code instead compares the row **value sum**
(`URM_csr.sum(axis=1)`), and 5.0 ≥ 3, so the entry is kept. -/
theorem claim3_filter_uses_sum :
    (filterMinRatings (Coo.mk 1 1 [(0, 0, 5)]) 3).entries = [(0, 0, 5)] ∧
    ((Coo.mk 1 1 [(0, 0, 5)]).entries.filter (fun e => !(e.2.2 == 0))).length
      = 1 := by
  with_unfolding_all decide

/-! ### Claim C4 -/

theorem zipRange_snd (l : List α) :
    ((l.zip (List.range l.length)).map Prod.snd)
      = List.range (l.zip (List.range l.length)).length := by
  rw [List.length_zip, List.length_range, min_self]
  exact map_snd_zip_range l

theorem itemCounts_snd (cols : List Nat) (p : Nat × Nat)
    (hp : p ∈ itemCounts cols) : p.2 = cols.count p.1 := by
  unfold itemCounts at hp
  rcases List.mem_map.mp hp with ⟨i, _, rfl⟩
  rfl

/-- The surviving pair list `unique_items[np.argsort(item_counts)[::-1]][k:]`
is ordered by non-increasing popularity. -/
theorem survivingPairs_desc_popularity (cols : List Nat) (k : Nat) :
    (((sortByKey Prod.snd (itemCounts cols)).reverse).drop k).Pairwise
      (fun a b => cols.count b.1 ≤ cols.count a.1) := by
  have h1 : ((sortByKey Prod.snd (itemCounts cols)).reverse).Pairwise
      (fun a b => b.2 ≤ a.2) := by
    rw [List.pairwise_reverse]
    exact sortByKey_sorted Prod.snd (itemCounts cols)
  have h2 := h1.sublist (List.drop_sublist k _)
  have hmem : ∀ x ∈ ((sortByKey Prod.snd (itemCounts cols)).reverse).drop k,
      x ∈ itemCounts cols := by
    intro x hx
    have hx1 := (List.drop_sublist k _).subset hx
    rw [List.mem_reverse] at hx1
    exact (sortByKey_perm Prod.snd (itemCounts cols)).mem_iff.mp hx1
  refine h2.imp_of_mem ?_
  intro a b ha hb hab
  rw [← itemCounts_snd cols a (hmem a ha), ← itemCounts_snd cols b (hmem b hb)]
  exact hab

/-- When `remove_top_pop > 0`, the surviving item list is ordered by
non-increasing popularity (occurrence count in `cols`). -/
theorem survivingItems_desc_popularity (cols : List Nat) (r : Rat)
    (hr : 0 < r) :
    (survivingItems cols r).Pairwise
      (fun x y => cols.count y ≤ cols.count x) := by
  unfold survivingItems
  rw [if_pos hr]
  exact List.pairwise_map.mpr (survivingPairs_desc_popularity cols _)

theorem buildURM_rowToUser (rows cols : List Nat) (data : List Rat)
    (imp : Bool) (r : Rat) :
    (buildURM rows cols data imp r).2.1
      = (sortedUnique (popFilter rows cols (implicitData data imp) r).1).zip
          (List.range
            (sortedUnique (popFilter rows cols (implicitData data imp) r).1).length) :=
  rfl

theorem buildURM_colToItem (rows cols : List Nat) (data : List Rat)
    (imp : Bool) (r : Rat) :
    (buildURM rows cols data imp r).2.2
      = (survivingItems cols r).zip (List.range (survivingItems cols r).length) :=
  rfl

/-- **C4** (amended): for every build, `row_to_user` and `col_to_item` are
injective mappings whose value lists are exactly `0, ..., N-1` (resp.
`0, ..., M-1`) for `N` (resp. `M`) surviving unique raw ids; `row_to_user`
assigns dense indices in increasing raw-id order (the order of the
sorted-unique sequence); `col_to_item` does so when `remove_top_pop = 0`,
and when `remove_top_pop > 0` it assigns indices in descending-popularity
order of the surviving items instead.  (The claim's original form asserted
sorted-unique assignment order for items under `remove_top_pop > 0` as
well; that fails because lines 393–396 reorder `unique_items` by
descending popularity before the dictionary is built — see the
counterexample.) -/
theorem claim4_mappings_bijective (rows cols : List Nat) (data : List Rat)
    (imp : Bool) (r : Rat) :
    ((buildURM rows cols data imp r).2.1.map Prod.snd
       = List.range (buildURM rows cols data imp r).2.1.length) ∧
    ((buildURM rows cols data imp r).2.1.map Prod.fst).Nodup ∧
    (buildURM rows cols data imp r).2.1.Pairwise (fun a b => a.1 < b.1) ∧
    ((buildURM rows cols data imp r).2.2.map Prod.snd
       = List.range (buildURM rows cols data imp r).2.2.length) ∧
    ((buildURM rows cols data imp r).2.2.map Prod.fst).Nodup ∧
    (0 < r →
      (buildURM rows cols data imp r).2.2.Pairwise
        (fun a b => cols.count b.1 ≤ cols.count a.1)) ∧
    (¬ 0 < r →
      (buildURM rows cols data imp r).2.2.Pairwise (fun a b => a.1 < b.1)) := by
  rw [buildURM_rowToUser, buildURM_colToItem]
  refine ⟨zipRange_snd _, ?_, ?_, zipRange_snd _, ?_, ?_, ?_⟩
  · rw [map_fst_zip_range]
    exact sortedUnique_nodup _
  · exact pairwise_fst_zip_range _ _ (sortedUnique_sorted_lt _)
  · rw [map_fst_zip_range]
    exact survivingItems_nodup cols r
  · intro hr
    exact pairwise_fst_zip_range _ _ (survivingItems_desc_popularity cols r hr)
  · intro hr
    refine pairwise_fst_zip_range _ _ ?_
    unfold survivingItems
    rw [if_neg hr]
    exact sortedUnique_sorted_lt cols

/-- **C4** (counterexample to the original claim): interactions with items
`[10, 20, 20]` and `remove_top_pop = 0.4`.  Here `k = floor(2 × 0.4) = 0`,
so no item is dropped, yet the code reorders the unique items by
descending popularity before zipping with `range`, producing
`{20 ↦ 0, 10 ↦ 1}` instead of the sorted-unique-order mapping
`{10 ↦ 0, 20 ↦ 1}`. -/
theorem claim4_counterexample :
    (buildURM [1, 2, 3] [10, 20, 20] [1, 1, 1] false (2/5)).2.2
      = [(20, 0), (10, 1)] ∧
    specOrderedMapping (survivingItems [10, 20, 20] (2/5)) = [(10, 0), (20, 1)] ∧
    (buildURM [1, 2, 3] [10, 20, 20] [1, 1, 1] false (2/5)).2.2
      ≠ specOrderedMapping (survivingItems [10, 20, 20] (2/5)) := by
  with_unfolding_all decide

/-- **C4** (witness): the amended theorem applied to the spec's worked
example (`rows=[1,2,1]`, `cols=[10,10,20]`, `remove_top_pop = 0`), with the
sorted-order item conjunct discharged at `r = 0`, and to
`cols=[10,20,20]` with `remove_top_pop = 0.4`, with the
descending-popularity item conjunct discharged at `0 < 0.4`. -/
theorem claim4_witness :
    (((buildURM [1, 2, 1] [10, 10, 20] [5, 3, 4] false 0).2.1.map Prod.snd
       = List.range (buildURM [1, 2, 1] [10, 10, 20] [5, 3, 4] false 0).2.1.length) ∧
     ((buildURM [1, 2, 1] [10, 10, 20] [5, 3, 4] false 0).2.1.map Prod.fst).Nodup ∧
     (buildURM [1, 2, 1] [10, 10, 20] [5, 3, 4] false 0).2.1.Pairwise
       (fun a b => a.1 < b.1) ∧
     ((buildURM [1, 2, 1] [10, 10, 20] [5, 3, 4] false 0).2.2.map Prod.snd
       = List.range (buildURM [1, 2, 1] [10, 10, 20] [5, 3, 4] false 0).2.2.length) ∧
     ((buildURM [1, 2, 1] [10, 10, 20] [5, 3, 4] false 0).2.2.map Prod.fst).Nodup ∧
     (buildURM [1, 2, 1] [10, 10, 20] [5, 3, 4] false 0).2.2.Pairwise
       (fun a b => a.1 < b.1)) ∧
    (buildURM [1, 2, 3] [10, 20, 20] [1, 1, 1] false (2/5)).2.2.Pairwise
      (fun a b => [10, 20, 20].count b.1 ≤ [10, 20, 20].count a.1) :=
  ⟨⟨(claim4_mappings_bijective [1, 2, 1] [10, 10, 20] [5, 3, 4] false 0).1,
    (claim4_mappings_bijective [1, 2, 1] [10, 10, 20] [5, 3, 4] false 0).2.1,
    (claim4_mappings_bijective [1, 2, 1] [10, 10, 20] [5, 3, 4] false 0).2.2.1,
    (claim4_mappings_bijective [1, 2, 1] [10, 10, 20] [5, 3, 4] false 0).2.2.2.1,
    (claim4_mappings_bijective [1, 2, 1] [10, 10, 20] [5, 3, 4] false 0).2.2.2.2.1,
    (claim4_mappings_bijective [1, 2, 1] [10, 10, 20] [5, 3, 4] false 0).2.2.2.2.2.2
      (lt_irrefl 0)⟩,
   (claim4_mappings_bijective [1, 2, 3] [10, 20, 20] [1, 1, 1] false (2/5)).2.2.2.2.2.1
     (by with_unfolding_all decide)⟩

/-! ### Claim C5 -/

theorem implicitData_length (data : List Rat) (imp : Bool) :
    (implicitData data imp).length = data.length := by
  cases imp <;> simp [implicitData]

theorem buildURM_nCols (rows cols : List Nat) (data : List Rat)
    (imp : Bool) (r : Rat) :
    (buildURM rows cols data imp r).1.nCols = (survivingItems cols r).length :=
  rfl

/-- **C5**: for every parsed interaction set with `U` unique item ids and
every removal fraction `0 < r < 1`: `k = floor(U·r)` is at most `U`; the
built matrix has exactly `U - k` item columns; the popularity filter drops
`rows`, `cols` and `data` entries in lock-step (the three filtered
sequences zip to exactly the original triples whose item survives); and no
surviving triple references a removed item. -/
theorem claim5_remove_top_pop (rows cols : List Nat) (data : List Rat)
    (imp : Bool) (r : Rat) (h1 : rows.length = cols.length)
    (h2 : data.length = cols.length) (hr0 : 0 < r) (hr1 : r < 1) :
    Nat.floor (((sortedUnique cols).length : Rat) * r)
      ≤ (sortedUnique cols).length ∧
    (buildURM rows cols data imp r).1.nCols
      = (sortedUnique cols).length
        - Nat.floor (((sortedUnique cols).length : Rat) * r) ∧
    ((popFilter rows cols (implicitData data imp) r).1.zip
       ((popFilter rows cols (implicitData data imp) r).2.1.zip
         (popFilter rows cols (implicitData data imp) r).2.2))
      = ((rows.zip (cols.zip (implicitData data imp))).filter
          (fun t => decide (t.2.1 ∈ survivingItems cols r))) ∧
    (∀ t ∈ (rows.zip (cols.zip (implicitData data imp))).filter
        (fun t => decide (t.2.1 ∈ survivingItems cols r)),
       t.2.1 ∉ removedItems cols r) := by
  refine ⟨?_, ?_, ?_, ?_⟩
  · have hmul : ((sortedUnique cols).length : Rat) * r
        ≤ ((sortedUnique cols).length : Rat) :=
      mul_le_of_le_one_right (by positivity) (le_of_lt hr1)
    calc Nat.floor (((sortedUnique cols).length : Rat) * r)
        ≤ Nat.floor (((sortedUnique cols).length : Rat)) := Nat.floor_le_floor hmul
      _ = (sortedUnique cols).length := Nat.floor_natCast _
  · rw [buildURM_nCols, survivingItems_length cols r hr0]
  · rw [popFilter_pos rows cols (implicitData data imp) r hr0]
    exact applyMask_zip3 _ cols rows (implicitData data imp) h1
      (by rw [implicitData_length]; exact h2)
  · intro t ht
    have hmem := List.mem_filter.mp ht
    exact survivingItems_not_removed cols r t.2.1 (of_decide_eq_true hmem.2)

/-- **C5** (witness): the theorem applied to `rows=[1,2,3]`,
`cols=[10,20,20]`, `data=[1,1,1]`, `remove_top_pop=0.5`: `U = 2`, `k = 1`,
one column survives, and the surviving triples avoid the dropped more
popular item `20`. -/
theorem claim5_witness :
    (Nat.floor (((sortedUnique [10, 20, 20]).length : Rat) * (1/2))
      ≤ (sortedUnique [10, 20, 20]).length) ∧
    ((buildURM [1, 2, 3] [10, 20, 20] [1, 1, 1] false (1/2)).1.nCols
      = (sortedUnique [10, 20, 20]).length
        - Nat.floor (((sortedUnique [10, 20, 20]).length : Rat) * (1/2))) ∧
    ((popFilter [1, 2, 3] [10, 20, 20] (implicitData [1, 1, 1] false) (1/2)).1.zip
       ((popFilter [1, 2, 3] [10, 20, 20] (implicitData [1, 1, 1] false) (1/2)).2.1.zip
         (popFilter [1, 2, 3] [10, 20, 20] (implicitData [1, 1, 1] false) (1/2)).2.2)
      = (([1, 2, 3].zip ([10, 20, 20].zip (implicitData [1, 1, 1] false))).filter
          (fun t => decide (t.2.1 ∈ survivingItems [10, 20, 20] (1/2))))) ∧
    (∀ t ∈ ([1, 2, 3].zip ([10, 20, 20].zip (implicitData [1, 1, 1] false))).filter
        (fun t => decide (t.2.1 ∈ survivingItems [10, 20, 20] (1/2))),
       t.2.1 ∉ removedItems [10, 20, 20] (1/2)) :=
  claim5_remove_top_pop [1, 2, 3] [10, 20, 20] [1, 1, 1] false (1/2)
    (by decide) (by decide)
    (by with_unfolding_all decide) (by with_unfolding_all decide)

/-! ### Claim C6 -/

theorem selectFoldEq_sublist (entries : List Entry) (choice : List Nat)
    (h : entries.length ≤ choice.length) (i : Nat) :
    (selectFoldEq entries choice i).Sublist entries := by
  have h1 : ((entries.zip choice).filter (fun p => p.2 == i)).Sublist
      (entries.zip choice) := List.filter_sublist _
  have h2 := h1.map Prod.fst
  rwa [List.map_fst_zip entries choice h] at h2

theorem selectFoldNe_sublist (entries : List Entry) (choice : List Nat)
    (h : entries.length ≤ choice.length) (i : Nat) :
    (selectFoldNe entries choice i).Sublist entries := by
  have h1 : ((entries.zip choice).filter (fun p => !(p.2 == i))).Sublist
      (entries.zip choice) := List.filter_sublist _
  have h2 := h1.map Prod.fst
  rwa [List.map_fst_zip entries choice h] at h2

theorem selectFold_perm (entries : List Entry) (choice : List Nat)
    (h : choice.length = entries.length) (i : Nat) :
    (selectFoldEq entries choice i ++ selectFoldNe entries choice i).Perm
      entries := by
  have hp := List.filter_append_perm (fun p : Entry × Nat => p.2 == i)
    (entries.zip choice)
  have hm := hp.map Prod.fst
  rw [List.map_append, List.map_fst_zip entries choice (le_of_eq h.symm)] at hm
  exact hm

theorem sum_map_add_nat (l : List β) (f g : β → Nat) :
    (l.map (fun x => f x + g x)).sum = (l.map f).sum + (l.map g).sum := by
  induction l with
  | nil => simp
  | cons x xs ih =>
    simp only [List.map_cons, List.sum_cons, ih]
    omega

theorem sum_indicator (v : Nat) : ∀ (k : Nat), v < k →
    ((List.range k).map (fun i => if v = i then 1 else 0)).sum = 1 := by
  intro k
  induction k with
  | zero => intro h; exact absurd h (Nat.not_lt_zero v)
  | succ k ih =>
    intro h
    rw [List.range_succ, List.map_append, List.sum_append]
    by_cases hv : v = k
    · subst hv
      have hz : ((List.range v).map (fun i => if v = i then 1 else 0)).sum = 0 := by
        apply List.sum_eq_zero
        intro x hx
        rcases List.mem_map.mp hx with ⟨i, hi, rfl⟩
        have hilt : i < v := List.mem_range.mp hi
        simp [Nat.ne_of_gt hilt]
      simp [hz]
    · have hlt : v < k := by omega
      rw [ih hlt]
      simp [hv]

theorem sum_len_filterEq (k : Nat) (zs : List (Entry × Nat))
    (h : ∀ z ∈ zs, z.2 < k) :
    ((List.range k).map (fun i => (zs.filter (fun p => p.2 == i)).length)).sum
      = zs.length := by
  induction zs with
  | nil => simp
  | cons z zs ih =>
    have hz : z.2 < k := h z (List.mem_cons_self z zs)
    have hzs : ∀ w ∈ zs, w.2 < k := fun w hw => h w (List.mem_cons_of_mem z hw)
    have hpt : ∀ i ∈ List.range k,
        ((z :: zs).filter (fun p => p.2 == i)).length
          = (if z.2 = i then 1 else 0)
            + (zs.filter (fun p => p.2 == i)).length := by
      intro i _
      rw [List.filter_cons]
      by_cases hzi : z.2 = i
      · rw [if_pos (by simp [hzi]), if_pos hzi, List.length_cons]
        omega
      · rw [if_neg (by simp [hzi]), if_neg hzi]
        omega
    rw [List.map_congr_left hpt, sum_map_add_nat, sum_indicator z.2 k hz, ih hzs]
    simp [Nat.add_comm]

/-- **C6** (amended): for every coordinate matrix `M` whose stored entries
occupy pairwise-distinct positions, every fold count `k ≥ 1`, and every
fold-label vector the draw can produce, `get_CV_folds` yields exactly `k`
`(train, test)` pairs; each pair keeps `M`'s shape and its train and test
entries together are exactly `M`'s entries (as a multiset); and the test
entry counts over the `k` folds sum to `nnz M`.  (The claim's original
form, over matrices with duplicate positions as well, fails because the
yielded matrices pass through `.tocsr()` — see the counterexample.) -/
theorem claim6_cv_folds (M : Coo) (k : Nat) (choice : List Nat)
    (hk : 1 ≤ k) (hnd : (M.entries.map Entry.pos).Nodup)
    (hlen : choice.length = M.entries.length)
    (hv : validFoldChoice k choice) :
    (getCVFolds M k choice).length = k ∧
    (∀ pr ∈ getCVFolds M k choice,
       pr.1.nRows = M.nRows ∧ pr.1.nCols = M.nCols ∧
       pr.2.nRows = M.nRows ∧ pr.2.nCols = M.nCols ∧
       entriesMS pr.1 + entriesMS pr.2 = entriesMS M) ∧
    ((getCVFolds M k choice).map (fun pr => nnz pr.2)).sum = nnz M := by
  have hle : M.entries.length ≤ choice.length := le_of_eq hlen.symm
  have hsdEq : ∀ i, sumDuplicates (selectFoldEq M.entries choice i)
      = selectFoldEq M.entries choice i := fun i =>
    sumDuplicates_of_nodup _
      (hnd.sublist ((selectFoldEq_sublist M.entries choice hle i).map Entry.pos))
  have hsdNe : ∀ i, sumDuplicates (selectFoldNe M.entries choice i)
      = selectFoldNe M.entries choice i := fun i =>
    sumDuplicates_of_nodup _
      (hnd.sublist ((selectFoldNe_sublist M.entries choice hle i).map Entry.pos))
  refine ⟨by simp [getCVFolds], ?_, ?_⟩
  · intro pr hpr
    rcases List.mem_map.mp hpr with ⟨i, hi, rfl⟩
    refine ⟨rfl, rfl, rfl, rfl, ?_⟩
    simp only [tocsr, entriesMS, hsdNe i, hsdEq i]
    have hperm := selectFold_perm M.entries choice hlen i
    have hcoe := Multiset.coe_eq_coe.mpr hperm
    have h2 : (↑(selectFoldEq M.entries choice i) : Multiset Entry)
        + ↑(selectFoldNe M.entries choice i) = ↑M.entries := by
      simpa using hcoe
    rw [add_comm]
    exact h2
  · simp only [getCVFolds, List.map_map]
    have hpt : ∀ i ∈ List.range k,
        ((fun pr : Coo × Coo => nnz pr.2) ∘ fun i =>
          (tocsr ⟨M.nRows, M.nCols, selectFoldNe M.entries choice i⟩,
           tocsr ⟨M.nRows, M.nCols, selectFoldEq M.entries choice i⟩)) i
          = ((M.entries.zip choice).filter (fun p => p.2 == i)).length := by
      intro i _
      simp only [Function.comp_apply, tocsr, nnz]
      rw [hsdEq i]
      simp only [selectFoldEq, List.length_map]
    rw [List.map_congr_left hpt,
      sum_len_filterEq k (M.entries.zip choice)
        (fun z hz => hv z.2 (List.of_mem_zip hz).2),
      List.length_zip, hlen, min_self]
    rfl

/-- **C6** (counterexample to the original claim): the matrix with the two
stored entries `(0,0,1.0)` and `(0,0,2.0)` (a duplicate position) and one
fold.  The only fold-label vector the draw can produce is `[0, 0]`; the
yielded test matrix passes through `.tocsr()`, which merges the two
entries, so its entry count is 1 and the test counts do not sum to
`nnz M = 2`. -/
theorem claim6_counterexample :
    validFoldChoice 1 [0, 0] ∧
    (getCVFolds (Coo.mk 1 1 [(0, 0, 1), (0, 0, 2)]) 1 [0, 0]).length = 1 ∧
    ¬ ((getCVFolds (Coo.mk 1 1 [(0, 0, 1), (0, 0, 2)]) 1 [0, 0]).map
          (fun pr => nnz pr.2)).sum = nnz (Coo.mk 1 1 [(0, 0, 1), (0, 0, 2)]) := by
  with_unfolding_all decide

/-- **C6** (witness): the amended theorem applied to the concrete matrix
with entries `(0,0,5.0)` and `(1,1,3.0)`, two folds and the draw `[0, 1]`. -/
theorem claim6_witness :
    (1 ≤ 2 ∧
     ((Coo.mk 2 2 [(0, 0, 5), (1, 1, 3)]).entries.map Entry.pos).Nodup ∧
     ([0, 1] : List Nat).length
       = (Coo.mk 2 2 [(0, 0, 5), (1, 1, 3)]).entries.length ∧
     validFoldChoice 2 [0, 1]) ∧
    ((getCVFolds (Coo.mk 2 2 [(0, 0, 5), (1, 1, 3)]) 2 [0, 1]).length = 2 ∧
     (∀ pr ∈ getCVFolds (Coo.mk 2 2 [(0, 0, 5), (1, 1, 3)]) 2 [0, 1],
        pr.1.nRows = (Coo.mk 2 2 [(0, 0, 5), (1, 1, 3)]).nRows ∧
        pr.1.nCols = (Coo.mk 2 2 [(0, 0, 5), (1, 1, 3)]).nCols ∧
        pr.2.nRows = (Coo.mk 2 2 [(0, 0, 5), (1, 1, 3)]).nRows ∧
        pr.2.nCols = (Coo.mk 2 2 [(0, 0, 5), (1, 1, 3)]).nCols ∧
        entriesMS pr.1 + entriesMS pr.2
          = entriesMS (Coo.mk 2 2 [(0, 0, 5), (1, 1, 3)])) ∧
     ((getCVFolds (Coo.mk 2 2 [(0, 0, 5), (1, 1, 3)]) 2 [0, 1]).map
         (fun pr => nnz pr.2)).sum
       = nnz (Coo.mk 2 2 [(0, 0, 5), (1, 1, 3)])) :=
  ⟨⟨by decide, by decide, by decide, by decide⟩,
   claim6_cv_folds (Coo.mk 2 2 [(0, 0, 5), (1, 1, 3)]) 2 [0, 1]
     (by decide) (by decide) (by decide) (by decide)⟩

/-! ### Claim C7 -/

theorem popFilter_data_mem (rows cols : List Nat) (data : List Rat) (r : Rat)
    (x : Rat) (hx : x ∈ (popFilter rows cols data r).2.2) : x ∈ data := by
  unfold popFilter at hx
  by_cases h : 0 < r
  · rw [if_pos h] at hx
    exact applyMask_mem _ _ _ hx
  · rw [if_neg h] at hx
    exact hx

/-- **C7**: for every parsed interaction set and every removal fraction,
`build_URM` called with `implicit=True` produces a matrix whose every
stored value equals 1.0, regardless of the input rating magnitudes
(line 389 replaces the data column with `np.ones`). -/
theorem claim7_implicit_ones (rows cols : List Nat) (data : List Rat)
    (r : Rat) :
    ∀ e ∈ (buildURM rows cols data true r).1.entries, e.2.2 = 1 := by
  intro e he
  simp only [buildURM] at he
  rcases e with ⟨a, b, v⟩
  have h1 := List.of_mem_zip he
  have h2 := List.of_mem_zip h1.2
  have h3 : v ∈ implicitData data true :=
    popFilter_data_mem rows cols (implicitData data true) r v h2.2
  simp only [implicitData, if_pos] at h3
  exact List.eq_of_mem_replicate h3

/-- **C7** (witness): the theorem applied to the single interaction
`(7, 5, 9.0)`: the built matrix stores the entry `(0, 0, 1.0)`. -/
theorem claim7_witness :
    ((0, 0, 1) : Entry) ∈ (buildURM [7] [5] [9] true 0).1.entries ∧
    ((0, 0, 1) : Entry).2.2 = 1 :=
  ⟨by with_unfolding_all decide,
   claim7_implicit_ones [7] [5] [9] 0 (0, 0, 1)
     (by with_unfolding_all decide)⟩

/-! ### Claim C8 -/

/-- **C8**: the constructor's ratio check (its first statement; the
constructor performs no file access at all) accepts a configuration
exactly when the split ratio has three elements and they sum to 1;
otherwise it raises.  The floating-point sum of the source is modelled as
an exact rational sum. -/
theorem claim8_ratio_check (useCols : List (String × Nat)) (probs : List Rat)
    (sOn : String) (hdr : Bool) (dl : String) (imp : Bool) (rtp : Rat)
    (mr sd : Int) :
    (∃ c, dataReaderInit useCols probs sOn hdr dl imp rtp mr sd = Except.ok c)
      ↔ (probs.length = 3 ∧ probs.sum = 1) := by
  unfold dataReaderInit
  by_cases h : probs.sum ≠ 1 ∨ probs.length ≠ 3
  · rw [if_pos h]
    constructor
    · rintro ⟨c, hc⟩
      cases hc
    · rintro ⟨hL, hS⟩
      rcases h with h | h
      · exact absurd hS h
      · exact absurd hL h
  · rw [if_neg h]
    push_neg at h
    exact ⟨fun _ => ⟨h.2, h.1⟩, fun _ => ⟨_, rfl⟩⟩

/-! ### Claim C9 -/

/-- **C9** (amended): `get_ratings_file` removes the downloaded archive
only on successful extraction; when the archive is corrupt or the data
file is missing from it, the error propagates and the archive file is
left on disk.  (The claim's original form — removal before the error
propagates — fails: `os.remove(zip_file)` sits on the success path of the
`try`, and the `except` clause only prints and re-raises; see the
counterexample.) -/
theorem claim9_archive_left_on_failure (fs : List String) (z d : String)
    (oc : ZipOutcome) :
    (oc ≠ ZipOutcome.ok →
       (∃ m, (getRatingsFile fs z d oc).2 = Except.error m) ∧
       z ∈ (getRatingsFile fs z d oc).1) ∧
    (oc = ZipOutcome.ok → z ∉ fs → z ≠ d →
       (getRatingsFile fs z d oc).2 = Except.ok d ∧
       z ∉ (getRatingsFile fs z d oc).1) := by
  cases oc with
  | ok =>
    refine ⟨fun h => absurd rfl h, fun _ hnf hnd => ⟨rfl, ?_⟩⟩
    simp only [getRatingsFile, List.erase_cons_head]
    simp [hnd, hnf]
  | missingMember =>
    exact ⟨fun _ => ⟨⟨_, rfl⟩, List.mem_cons_self z fs⟩, fun h => by cases h⟩
  | corrupt =>
    exact ⟨fun _ => ⟨⟨_, rfl⟩, List.mem_cons_self z fs⟩, fun h => by cases h⟩

/-- **C9** (counterexample to the original claim): a corrupt archive on an
initially empty disk.  `zipfile.ZipFile` raises before the `try`, the
error propagates, and the archive `a.zip` is still on disk. -/
theorem claim9_counterexample :
    (getRatingsFile [] "a.zip" "d.csv" ZipOutcome.corrupt).2
      = Except.error "BadZipFile" ∧
    "a.zip" ∈ (getRatingsFile [] "a.zip" "d.csv" ZipOutcome.corrupt).1 :=
  ⟨rfl, by decide⟩

/-- **C9** (witness): the amended theorem applied to a missing-member
failure and to a successful extraction. -/
theorem claim9_witness :
    ((∃ m, (getRatingsFile [] "a.zip" "d.csv" ZipOutcome.missingMember).2
        = Except.error m) ∧
     "a.zip" ∈ (getRatingsFile [] "a.zip" "d.csv" ZipOutcome.missingMember).1) ∧
    ((getRatingsFile [] "a.zip" "d.csv" ZipOutcome.ok).2 = Except.ok "d.csv" ∧
     "a.zip" ∉ (getRatingsFile [] "a.zip" "d.csv" ZipOutcome.ok).1) :=
  ⟨(claim9_archive_left_on_failure [] "a.zip" "d.csv" ZipOutcome.missingMember).1
     (by decide),
   (claim9_archive_left_on_failure [] "a.zip" "d.csv" ZipOutcome.ok).2
     rfl (by decide) (by decide)⟩

/-! ### Claim C10 -/

theorem parseLine_not_ok (useCols : List (String × Nat)) (rowData : List Rat)
    (h : useCols.lookup "rating" = none) (o : Rat × Rat × Rat) :
    parseLine useCols rowData ≠ Except.ok o := by
  unfold parseLine
  cases h1 : useCols.lookup "user_id" with
  | none => simp
  | some ui =>
    cases h2 : rowData[ui]? with
    | none => simp [h2]
    | some u =>
      cases h3 : useCols.lookup "item_id" with
      | none => simp [h2, h3]
      | some ii =>
        cases h4 : rowData[ii]? with
        | none => simp [h2, h3, h4]
        | some it => simp [h2, h3, h4, h]

/-- **C10**: a `use_cols` mapping with fewer than three entries is not
rejected by the constructor — it silently forces `implicit = True` —
yet `read_interactions` still looks up `use_cols['rating']` on every data
line, so with a ratings-free column mapping and at least one data line the
parse raises and no output sequences are returned: the forced implicit
mode cannot actually be used. -/
theorem claim10_implicit_unusable (useCols : List (String × Nat)) (hdr : Bool)
    (lines : List (List Rat)) (imp : Bool) (rtp : Rat) (mr sd : Int)
    (sOn dl : String) :
    (useCols.length < 3 →
       ∃ c, dataReaderInit useCols [3/5, 1/5, 1/5] sOn hdr dl imp rtp mr sd
              = Except.ok c ∧ c.implicit = true) ∧
    (useCols.lookup "rating" = none →
     (if hdr then lines.drop 1 else lines) ≠ [] →
     ∀ out, readInteractions useCols hdr lines ≠ Except.ok out) := by
  constructor
  · intro hlen
    have hcond : ¬(([3/5, 1/5, 1/5] : List Rat).sum ≠ 1 ∨
        ([3/5, 1/5, 1/5] : List Rat).length ≠ 3) := by
      push_neg
      refine ⟨?_, rfl⟩
      norm_num [List.sum_cons, List.sum_nil]
    unfold dataReaderInit
    rw [if_neg hcond]
    exact ⟨_, rfl, by rw [if_pos hlen]⟩
  · intro hrat hne out hok
    unfold readInteractions at hok
    cases hd : (if hdr then lines.drop 1 else lines) with
    | nil => exact hne hd
    | cons d rest =>
      rw [hd] at hok
      unfold readLines at hok
      cases hp : parseLine useCols d with
      | error e =>
        rw [hp] at hok
        cases hok
      | ok v => exact parseLine_not_ok useCols d hrat v hp

/-- **C10** (witness): the theorem applied to
`use_cols = {'user_id': 0, 'item_id': 1}` (two entries, no `'rating'`
key) and the single data line `(1, 10)`. -/
theorem claim10_witness :
    (∃ c, dataReaderInit [("user_id", 0), ("item_id", 1)] [3/5, 1/5, 1/5]
            "item_popularity" false "," false 0 1 1234 = Except.ok c ∧
          c.implicit = true) ∧
    readInteractions [("user_id", 0), ("item_id", 1)] false [[1, 10]]
      ≠ Except.ok ([], [], []) :=
  ⟨(claim10_implicit_unusable [("user_id", 0), ("item_id", 1)] false [[1, 10]]
      false 0 1 1234 "item_popularity" ",").1 (by decide),
   (claim10_implicit_unusable [("user_id", 0), ("item_id", 1)] false [[1, 10]]
      false 0 1 1234 "item_popularity" ",").2 (by decide) (by decide)
     ([], [], [])⟩

end DataReaderPy
